import Mathlib

/-!
Verification of the core pipeline of `terraform-removed-remover`
(`cmd/terraform-removed-remover/main.go`).

Byte buffers are modelled as `List Nat` (one `Nat` per byte; byte values are
32 for space, 9 for tab, 10 for LF, 13 for CR).  The splicer loop of
`processFile` (lines 86-110), the whitespace normalizer
`normalizeConsecutiveNewlines` (lines 139-161) and the change-decision /
bookkeeping logic of `processFile` (lines 49-137) are embedded directly from
the Go source.  The HCL parser (`hclsyntax.ParseConfig`) and the canonical
formatter (`hclwrite.Format`) are external collaborators of the repository;
`processFile` is therefore parameterised over them, and a formatter modelled
from the spec's consumed-interface contract is given separately.
-/

/-! ### Splicer (main.go lines 86-110) -/

/-- Loop `for start > 0 && (result[start-1] == ' ' || result[start-1] == '\t') { start-- }`:
extend the deletion start backward over spaces and tabs. -/
def extendStart (result : List Nat) : Nat → Nat
  | 0 => 0
  | s + 1 =>
    if result.getD s 0 = 32 ∨ result.getD s 0 = 9 then extendStart result s
    else s + 1

/-- Body of the loop `for end < len(result) && (result[end] == '\r' || result[end] == '\n')
{ end++; if result[end-1] == '\n' { break } }`, walking the suffix that starts at the
original end offset and counting how many bytes the loop consumes. -/
def extendEndGo : List Nat → Nat
  | [] => 0
  | c :: rest =>
    if c = 10 then 1
    else if c = 13 then 1 + extendEndGo rest
    else 0

/-- Extend the deletion end forward, as the Go loop does on `result[end...]`. -/
def extendEnd (result : List Nat) (e : Nat) : Nat :=
  e + extendEndGo (result.drop e)

/-- One iteration of the deletion loop: `result = append(result[:start], result[end:]...)`
after both boundary extensions. -/
def spliceOne (result : List Nat) (r : Nat × Nat) : List Nat :=
  result.take (extendStart result r.1) ++ result.drop (extendEnd result r.2)

/-- The whole deletion loop: ranges are processed in reverse order
(`for i := len(removedRanges) - 1; i >= 0; i--`). -/
def spliceAll (content : List Nat) (ranges : List (Nat × Nat)) : List Nat :=
  ranges.reverse.foldl spliceOne content

/-! ### Closed-form characterization of the boundary extensions -/

/-- A byte the backward extension may consume: plain space or tab. -/
def isIndentByte (c : Nat) : Bool := c == 32 || c == 9

/-- Length of the run of space/tab bytes immediately preceding offset `s`. -/
def indentRun (result : List Nat) (s : Nat) : Nat :=
  ((result.take s).reverse.takeWhile isIndentByte).length

/-- Length of the run of CR bytes at the head of a suffix. -/
def crRun (q : List Nat) : Nat :=
  (q.takeWhile (fun c => c == 13)).length

/-- Number of bytes the forward extension consumes from the suffix `q`:
the whole leading CR run, plus one LF if one immediately follows it. -/
def endConsumed (q : List Nat) : Nat :=
  if q.getD (crRun q) 0 = 10 then crRun q + 1 else crRun q

lemma indentRun_le (result : List Nat) (s : Nat) (hs : s ≤ result.length) :
    indentRun result s ≤ s := by
  have h1 : indentRun result s ≤ (result.take s).reverse.length :=
    (List.takeWhile_sublist _).length_le
  simpa [List.length_take, Nat.min_eq_left hs] using h1

lemma extendStart_closed (result : List Nat) :
    ∀ s : Nat, s ≤ result.length → extendStart result s = s - indentRun result s := by
  intro s
  induction s with
  | zero => intro _; simp [extendStart, indentRun]
  | succ n ih =>
    intro hs
    have hn : n < result.length := Nat.lt_of_succ_le hs
    obtain ⟨a, ha⟩ : ∃ a, result.getD n 0 = a := ⟨_, rfl⟩
    have htake : result.take (n + 1) = result.take n ++ [a] := by
      rw [List.take_succ, List.getElem?_eq_getElem hn, ← ha,
        List.getD_eq_getElem?_getD, List.getElem?_eq_getElem hn]
      rfl
    have hstep : extendStart result (n + 1)
        = if a = 32 ∨ a = 9 then extendStart result n else n + 1 := by
      rw [extendStart, ha]
    by_cases hcond : a = 32 ∨ a = 9
    · have hbyte : isIndentByte a = true := by
        rcases hcond with h | h <;> rw [h] <;> rfl
      have hrun : indentRun result (n + 1) = indentRun result n + 1 := by
        unfold indentRun
        rw [htake, List.reverse_append, List.reverse_singleton,
          List.singleton_append, List.takeWhile_cons, hbyte]
        simp
      have hle : indentRun result n ≤ n := indentRun_le result n (Nat.le_of_lt hn)
      rw [hstep, if_pos hcond, ih (Nat.le_of_lt hn), hrun]
      omega
    · have hbyte : isIndentByte a = false := by
        simp only [isIndentByte, Bool.or_eq_false_iff, beq_eq_false_iff_ne]
        exact ⟨fun h => hcond (Or.inl h), fun h => hcond (Or.inr h)⟩
      have hrun : indentRun result (n + 1) = 0 := by
        unfold indentRun
        rw [htake, List.reverse_append, List.reverse_singleton,
          List.singleton_append, List.takeWhile_cons, hbyte]
        simp
      rw [hstep, if_neg hcond, hrun]
      omega

lemma crRun_cons_cr (q : List Nat) : crRun (13 :: q) = crRun q + 1 := by
  unfold crRun
  rw [List.takeWhile_cons]
  simp [Nat.add_comm]

lemma crRun_cons_ne (c : Nat) (q : List Nat) (hc : c ≠ 13) : crRun (c :: q) = 0 := by
  unfold crRun
  rw [List.takeWhile_cons]
  simp [hc]

lemma extendEndGo_closed : ∀ q : List Nat, extendEndGo q = endConsumed q := by
  intro q
  induction q with
  | nil => rfl
  | cons c rest ih =>
    by_cases h10 : c = 10
    · subst h10
      have h1 : crRun (10 :: rest) = 0 := crRun_cons_ne 10 rest (by omega)
      rw [extendEndGo, if_pos rfl]
      unfold endConsumed
      rw [h1]
      rfl
    · by_cases h13 : c = 13
      · subst h13
        rw [extendEndGo, if_neg (by omega), if_pos rfl, ih]
        unfold endConsumed
        rw [crRun_cons_cr]
        have hget : (13 :: rest).getD (crRun rest + 1) 0 = rest.getD (crRun rest) 0 := rfl
        rw [hget]
        by_cases hl : rest.getD (crRun rest) 0 = 10
        · rw [if_pos hl, if_pos hl]
          omega
        · rw [if_neg hl, if_neg hl]
          omega
      · rw [extendEndGo, if_neg h10, if_neg h13]
        unfold endConsumed
        have h1 : crRun (c :: rest) = 0 := crRun_cons_ne c rest h13
        rw [h1]
        have hget : (c :: rest).getD 0 0 = c := rfl
        rw [hget, if_neg h10]

lemma extendEnd_closed (result : List Nat) (e : Nat) :
    extendEnd result e = e + endConsumed (result.drop e) := by
  unfold extendEnd
  rw [extendEndGo_closed]

/-! ### Whitespace normalizer (main.go lines 139-161) -/

/-- One pass of `strings.NewReplacer("\n\n\n", "\n\n", "\r\n\r\n\r\n", "\r\n\r\n").Replace`:
scan left to right, replacing the leftmost non-overlapping matches. -/
def replacePass : List Nat → List Nat
  | 10 :: 10 :: 10 :: rest => 10 :: 10 :: replacePass rest
  | 13 :: 10 :: 13 :: 10 :: 13 :: 10 :: rest => 13 :: 10 :: 13 :: 10 :: replacePass rest
  | c :: rest => c :: replacePass rest
  | [] => []

lemma replacePass_length_le : ∀ s : List Nat, (replacePass s).length ≤ s.length := by
  intro s
  induction s using replacePass.induct <;> simp [replacePass] <;> omega

lemma replacePass_eq_cons (c : Nat) (rest : List Nat)
    (h1 : ∀ r : List Nat, c = 10 → rest = 10 :: 10 :: r → False)
    (h2 : ∀ r : List Nat, c = 13 → rest = 10 :: 13 :: 10 :: 13 :: 10 :: r → False) :
    replacePass (c :: rest) = c :: replacePass rest := by
  rw [replacePass]
  · exact h1
  · exact h2

lemma replacePass_shrink (s : List Nat) (h : replacePass s ≠ s) :
    (replacePass s).length < s.length := by
  induction s using replacePass.induct with
  | case1 rest ih =>
    have := replacePass_length_le rest
    simp [replacePass]
    omega
  | case2 rest ih =>
    have := replacePass_length_le rest
    simp [replacePass]
    omega
  | case3 c rest h1 h2 ih =>
    rw [replacePass_eq_cons c rest h1 h2] at h ⊢
    have hne : replacePass rest ≠ rest := fun he => h (by rw [he])
    have := ih hne
    simp
    omega
  | case4 => simp [replacePass] at h

/-- The fixed-point loop `for { newContent := re.Replace(contentStr); if newContent ==
contentStr { break }; contentStr = newContent }`. -/
def collapseLoop (s : List Nat) : List Nat :=
  if hfix : replacePass s = s then s
  else collapseLoop (replacePass s)
termination_by s.length
decreasing_by exact replacePass_shrink s hfix

lemma collapseLoop_fix (s : List Nat) (h : replacePass s = s) : collapseLoop s = s := by
  unfold collapseLoop
  simp [h]

lemma collapseLoop_step (s : List Nat) (h : replacePass s ≠ s) :
    collapseLoop s = collapseLoop (replacePass s) := by
  conv_lhs => unfold collapseLoop
  simp [h]

lemma collapseLoop_isFixed (s : List Nat) :
    replacePass (collapseLoop s) = collapseLoop s := by
  induction s using collapseLoop.induct with
  | case1 s h => rw [collapseLoop_fix s h, h]
  | case2 s h ih => rw [collapseLoop_step s h]; exact ih

/-- `strings.ReplaceAll(contentStr, "\r\n", "\n")`. -/
def crlfToLf : List Nat → List Nat
  | 13 :: 10 :: rest => 10 :: crlfToLf rest
  | c :: rest => c :: crlfToLf rest
  | [] => []

/-- `strings.ReplaceAll(contentStr, "\n", "\r\n")`. -/
def lfToCrlf : List Nat → List Nat
  | [] => []
  | c :: rest => (if c = 10 then [13, 10] else [c]) ++ lfToCrlf rest

/-- `strings.TrimRight(contentStr, "\n")`. -/
def trimRightLF (s : List Nat) : List Nat :=
  ((s.reverse.dropWhile (fun c => c == 10))).reverse

/-- `bytes.Contains(content, []byte("\r\n"))`. -/
def containsCRLF : List Nat → Bool
  | [] => false
  | c :: rest => (c == 13 && rest.head? == some 10) || containsCRLF rest

/-- `normalizeConsecutiveNewlines` (main.go lines 139-161): collapse triple
terminators to a fixed point, normalize CRLF to LF, trim trailing newlines and
re-append exactly one, then restore CRLF if the original content contained any. -/
def normalizeConsecutiveNewlines (content : List Nat) : List Nat :=
  if containsCRLF content
  then lfToCrlf (trimRightLF (crlfToLf (collapseLoop content)) ++ [10])
  else trimRightLF (crlfToLf (collapseLoop content)) ++ [10]

/-! ### Observers for the blank-line invariant -/

/-- Whether the byte string contains three consecutive LF bytes somewhere. -/
def hasTripleLF : List Nat → Bool
  | [] => false
  | c :: rest => (c == 10 && rest.take 2 == [10, 10]) || hasTripleLF rest

lemma take_two_eq (l : List Nat) (h : l.take 2 = [10, 10]) :
    ∃ r, l = 10 :: 10 :: r := by
  match l with
  | [] => simp at h
  | [a] => simp at h
  | a :: b :: r =>
    simp [List.take] at h
    exact ⟨r, by rw [h.1, h.2]⟩

lemma replacePass_cr_free (s : List Nat) (h : ∀ c ∈ s, c ≠ 13) :
    ∀ c ∈ replacePass s, c ≠ 13 := by
  induction s using replacePass.induct with
  | case1 rest ih =>
    rw [replacePass]
    intro c hc
    rcases List.mem_cons.mp hc with rfl | hc
    · omega
    rcases List.mem_cons.mp hc with rfl | hc
    · omega
    · exact ih (fun d hd => h d (by simp [hd])) c hc
  | case2 rest ih =>
    exact absurd (h 13 (by simp)) (by simp)
  | case3 c rest h1 h2 ih =>
    rw [replacePass_eq_cons c rest h1 h2]
    intro d hd
    simp at hd
    rcases hd with hd | hd
    · exact hd ▸ h c (by simp)
    · exact ih (fun x hx => h x (by simp [hx])) d hd
  | case4 => intro c hc; simp [replacePass] at hc

lemma replacePass_triple_shrink (s : List Nat) (hcr : ∀ c ∈ s, c ≠ 13)
    (ht : hasTripleLF s = true) : (replacePass s).length < s.length := by
  induction s using replacePass.induct with
  | case1 rest ih =>
    have := replacePass_length_le rest
    simp [replacePass]
    omega
  | case2 rest ih =>
    exact absurd (hcr 13 (by simp)) (by simp)
  | case3 c rest h1 h2 ih =>
    rw [replacePass_eq_cons c rest h1 h2]
    rw [hasTripleLF] at ht
    rcases Bool.or_eq_true_iff.mp ht with hhead | htail
    · rcases Bool.and_eq_true_iff.mp hhead with ⟨hc, htk⟩
      obtain ⟨r, hr⟩ := take_two_eq rest (by simpa using htk)
      exact (h1 r (by simpa using hc) hr).elim
    · have := ih (fun x hx => hcr x (by simp [hx])) htail
      simp
      omega
  | case4 => simp [hasTripleLF] at ht

lemma fixed_point_no_triple (s : List Nat) (hcr : ∀ c ∈ s, c ≠ 13)
    (hfix : replacePass s = s) : hasTripleLF s = false := by
  cases ht : hasTripleLF s with
  | false => rfl
  | true =>
    have h1 := replacePass_triple_shrink s hcr ht
    rw [hfix] at h1
    omega

lemma collapseLoop_cr_free (s : List Nat) (h : ∀ c ∈ s, c ≠ 13) :
    ∀ c ∈ collapseLoop s, c ≠ 13 := by
  induction s using collapseLoop.induct with
  | case1 s hfix => rw [collapseLoop_fix s hfix]; exact h
  | case2 s hfix ih =>
    rw [collapseLoop_step s hfix]
    exact ih (replacePass_cr_free s h)

lemma collapseLoop_no_triple (s : List Nat) (h : ∀ c ∈ s, c ≠ 13) :
    hasTripleLF (collapseLoop s) = false :=
  fixed_point_no_triple (collapseLoop s) (collapseLoop_cr_free s h)
    (collapseLoop_isFixed s)

lemma crlfToLf_eq_cons (c : Nat) (rest : List Nat)
    (h1 : ∀ r : List Nat, c = 13 → rest = 10 :: r → False) :
    crlfToLf (c :: rest) = c :: crlfToLf rest := by
  rw [crlfToLf]
  exact h1

lemma crlfToLf_cr_free_id (s : List Nat) (h : ∀ c ∈ s, c ≠ 13) :
    crlfToLf s = s := by
  induction s using crlfToLf.induct with
  | case1 rest ih => exact absurd (h 13 (by simp)) (by simp)
  | case2 c rest h1 ih =>
    rw [crlfToLf_eq_cons c rest h1, ih (fun x hx => h x (by simp [hx]))]
  | case3 => rfl

lemma containsCRLF_cr_free (s : List Nat) (h : ∀ c ∈ s, c ≠ 13) :
    containsCRLF s = false := by
  induction s with
  | nil => rfl
  | cons c rest ih =>
    rw [containsCRLF]
    have hc : c ≠ 13 := h c (by simp)
    simp [hc]
    exact ih (fun x hx => h x (by simp [hx]))

lemma dropWhile_exists_drop (p : Nat → Bool) :
    ∀ l : List Nat, ∃ n, l.dropWhile p = l.drop n := by
  intro l
  induction l with
  | nil => exact ⟨0, rfl⟩
  | cons c rest ih =>
    by_cases hp : p c = true
    · obtain ⟨n, hn⟩ := ih
      exact ⟨n + 1, by rw [List.dropWhile_cons, if_pos hp]; exact hn⟩
    · exact ⟨0, by rw [List.dropWhile_cons, if_neg hp]; rfl⟩

lemma trimRightLF_eq_take (s : List Nat) : ∃ m, trimRightLF s = s.take m := by
  obtain ⟨n, hn⟩ := dropWhile_exists_drop (fun c => c == 10) s.reverse
  refine ⟨s.length - n, ?_⟩
  unfold trimRightLF
  rw [hn, List.reverse_drop]
  simp

lemma head?_dropWhile_false (p : Nat → Bool) :
    ∀ (l : List Nat) (a : Nat), (l.dropWhile p).head? = some a → p a = false := by
  intro l
  induction l with
  | nil => intro a ha; simp at ha
  | cons c rest ih =>
    intro a ha
    by_cases hp : p c = true
    · rw [List.dropWhile_cons, if_pos hp] at ha
      exact ih a ha
    · rw [List.dropWhile_cons, if_neg hp] at ha
      simp at ha
      subst ha
      simpa using hp

lemma trimRightLF_getLast_ne (s : List Nat) : (trimRightLF s).getLast? ≠ some 10 := by
  unfold trimRightLF
  rw [List.getLast?_reverse]
  intro h
  have h1 := head?_dropWhile_false (fun c => c == 10) s.reverse 10 h
  simp at h1

lemma hasTripleLF_append_left (xs ys : List Nat) (h : hasTripleLF xs = true) :
    hasTripleLF (xs ++ ys) = true := by
  induction xs with
  | nil => simp [hasTripleLF] at h
  | cons c rest ih =>
    rw [List.cons_append, hasTripleLF]
    rw [hasTripleLF] at h
    rcases Bool.or_eq_true_iff.mp h with hhead | htail
    · rcases Bool.and_eq_true_iff.mp hhead with ⟨hc, htk⟩
      obtain ⟨r, hr⟩ := take_two_eq rest (by simpa using htk)
      subst hr
      simp [hc]
    · rw [ih htail]
      simp

lemma hasTripleLF_take_false (s : List Nat) (m : Nat) (h : hasTripleLF s = false) :
    hasTripleLF (s.take m) = false := by
  cases htk : hasTripleLF (s.take m) with
  | false => rfl
  | true =>
    have h1 := hasTripleLF_append_left (s.take m) (s.drop m) htk
    rw [List.take_append_drop] at h1
    rw [h1] at h
    exact absurd h (by simp)

lemma hasTripleLF_append_single (t : List Nat) (h : hasTripleLF t = false)
    (hl : t.getLast? ≠ some 10) : hasTripleLF (t ++ [10]) = false := by
  induction t with
  | nil => decide
  | cons c rest ih =>
    rw [List.cons_append, hasTripleLF]
    rw [hasTripleLF] at h
    have h' := Bool.or_eq_false_iff.mp h
    cases rest with
    | nil => simp [hasTripleLF]
    | cons x r' =>
      have hl' : (x :: r').getLast? ≠ some 10 := by
        rw [List.getLast?_cons_cons] at hl
        exact hl
      have htail := ih h'.2 hl'
      rw [htail]
      simp only [Bool.or_false]
      cases r' with
      | nil =>
        have hx : x ≠ 10 := by
          intro he
          exact hl' (by rw [he]; rfl)
        simp [hx]
      | cons y r'' =>
        simpa using h'.1

lemma normalize_cr_free_shape (s : List Nat) (hcr : ∀ c ∈ s, c ≠ 13) :
    hasTripleLF (normalizeConsecutiveNewlines s) = false ∧
    normalizeConsecutiveNewlines s = trimRightLF (collapseLoop s) ++ [10] ∧
    (trimRightLF (collapseLoop s)).getLast? ≠ some 10 := by
  have hcc : containsCRLF s = false := containsCRLF_cr_free s hcr
  have hid : crlfToLf (collapseLoop s) = collapseLoop s :=
    crlfToLf_cr_free_id _ (collapseLoop_cr_free s hcr)
  have heq : normalizeConsecutiveNewlines s = trimRightLF (collapseLoop s) ++ [10] := by
    unfold normalizeConsecutiveNewlines
    rw [hcc, hid]
    simp
  have hnt : hasTripleLF (collapseLoop s) = false := collapseLoop_no_triple s hcr
  obtain ⟨m, hm⟩ := trimRightLF_eq_take (collapseLoop s)
  have htr : hasTripleLF (trimRightLF (collapseLoop s)) = false := by
    rw [hm]
    exact hasTripleLF_take_false _ m hnt
  have hgl := trimRightLF_getLast_ne (collapseLoop s)
  exact ⟨by rw [heq]; exact hasTripleLF_append_single _ htr hgl, heq, hgl⟩

/-! ### Canonical formatter, modelled from the spec -/

/-- Split a byte buffer into its LF-separated lines. -/
def splitLinesLF : List Nat → List (List Nat)
  | [] => [[]]
  | c :: rest =>
    if c = 10 then [] :: splitLinesLF rest
    else (c :: (splitLinesLF rest).headI) :: (splitLinesLF rest).tail

/-- Join lines back with LF separators. -/
def joinLinesLF : List (List Nat) → List Nat
  | [] => []
  | [l] => l
  | l :: l2 :: ls => l ++ 10 :: joinLinesLF (l2 :: ls)

/-- Drop the leading space/tab indentation of one line. -/
def stripIndent (l : List Nat) : List Nat := l.dropWhile isIndentByte

/-- Count occurrences of one byte in a line. -/
def countByte (b : Nat) (l : List Nat) : Nat := l.countP (fun c => c == b)

/-- Render one line at a brace-nesting depth: blank stays blank, otherwise the
stripped body is indented two spaces per depth level. -/
def renderLine (d : Int) (c : List Nat) : List Nat :=
  if c = [] then [] else List.replicate (2 * d.toNat) 32 ++ c

/-- Reindent a list of lines, tracking the brace depth; a line whose stripped
body starts with a closing brace is dedented one level first. -/
def fmtGo : Int → List (List Nat) → List (List Nat)
  | _, [] => []
  | d, l :: ls =>
    renderLine (if (stripIndent l).head? = some 125 then d - 1 else d) (stripIndent l)
      :: fmtGo (d + (countByte 123 (stripIndent l) : Int) - countByte 125 (stripIndent l)) ls

/-- Modelled from the spec: `hclwrite.Format`, the external canonical formatter the
pipeline consumes (`Format(bytes) -> bytes`, reindenting the configuration syntax
into its single canonical textual form).  The formatter itself is a third-party
collaborator and is not part of this repository; this model follows the spec's
contract description of canonical reindentation. -/
def hclwriteFormat (s : List Nat) : List Nat :=
  joinLinesLF (fmtGo 0 (splitLinesLF s))

lemma splitLinesLF_ne_nil (s : List Nat) : splitLinesLF s ≠ [] := by
  cases s with
  | nil => simp [splitLinesLF]
  | cons c rest =>
    rw [splitLinesLF]
    by_cases hc : c = 10
    · simp [hc]
    · simp [hc]

lemma splitLinesLF_no_lf (s : List Nat) : ∀ l ∈ splitLinesLF s, 10 ∉ l := by
  induction s with
  | nil => intro l hl; simp [splitLinesLF] at hl; simp [hl]
  | cons c rest ih =>
    intro l hl
    rw [splitLinesLF] at hl
    by_cases hc : c = 10
    · rw [if_pos hc] at hl
      rcases List.mem_cons.mp hl with rfl | hl
      · simp
      · exact ih l hl
    · rw [if_neg hc] at hl
      rcases List.mem_cons.mp hl with rfl | hl
      · intro hmem
        rcases List.mem_cons.mp hmem with h10 | h10
        · exact hc h10.symm
        · obtain ⟨hd, L, htl⟩ := List.exists_cons_of_ne_nil (splitLinesLF_ne_nil rest)
          have hhead : (splitLinesLF rest).headI ∈ splitLinesLF rest := by
            rw [htl]; simp
          exact ih _ hhead h10
      · obtain ⟨hd, L, htl⟩ := List.exists_cons_of_ne_nil (splitLinesLF_ne_nil rest)
        have hmem2 : l ∈ splitLinesLF rest := by
          rw [htl]
          rw [htl] at hl
          simp at hl
          simp [hl]
        exact ih l hmem2

lemma splitLinesLF_single (l : List Nat) (h : 10 ∉ l) : splitLinesLF l = [l] := by
  induction l with
  | nil => rfl
  | cons c rest ih =>
    have hc : c ≠ 10 := fun he => h (by simp [he])
    rw [splitLinesLF, if_neg hc, ih (fun hm => h (by simp [hm]))]
    rfl

lemma splitLinesLF_append_lf (l t : List Nat) (h : 10 ∉ l) :
    splitLinesLF (l ++ 10 :: t) = l :: splitLinesLF t := by
  induction l with
  | nil => simp [splitLinesLF]
  | cons c rest ih =>
    have hc : c ≠ 10 := fun he => h (by simp [he])
    rw [List.cons_append, splitLinesLF, if_neg hc,
      ih (fun hm => h (by simp [hm]))]
    rfl

lemma splitLinesLF_joinLinesLF (xs : List (List Nat)) (hne : xs ≠ [])
    (h : ∀ x ∈ xs, 10 ∉ x) : splitLinesLF (joinLinesLF xs) = xs := by
  induction xs with
  | nil => exact absurd rfl hne
  | cons l ls ih =>
    cases ls with
    | nil => exact splitLinesLF_single l (h l (by simp))
    | cons l2 ls' =>
      rw [joinLinesLF, splitLinesLF_append_lf l _ (h l (by simp)),
        ih (by simp) (fun x hx => h x (by simp [hx]))]

lemma stripIndent_idem (l : List Nat) : stripIndent (stripIndent l) = stripIndent l := by
  cases h : stripIndent l with
  | nil => rfl
  | cons a t =>
    have ha : isIndentByte a = false := by
      apply head?_dropWhile_false isIndentByte l
      rw [← stripIndent, h]
      rfl
    rw [stripIndent, List.dropWhile_cons, ha]
    simp

lemma stripIndent_replicate (k : Nat) (c : List Nat) :
    stripIndent (List.replicate k 32 ++ c) = stripIndent c := by
  induction k with
  | zero => rfl
  | succ n ih =>
    rw [List.replicate_succ, List.cons_append, stripIndent, List.dropWhile_cons]
    exact ih

lemma stripIndent_renderLine (d : Int) (c : List Nat) (hc : stripIndent c = c) :
    stripIndent (renderLine d c) = c := by
  unfold renderLine
  by_cases he : c = []
  · simp [he, stripIndent]
  · rw [if_neg he, stripIndent_replicate, hc]

lemma stripIndent_no_lf (l : List Nat) (h : 10 ∉ l) : 10 ∉ stripIndent l :=
  fun hm => h ((List.dropWhile_sublist isIndentByte).subset hm)

lemma renderLine_no_lf (d : Int) (c : List Nat) (h : 10 ∉ c) : 10 ∉ renderLine d c := by
  unfold renderLine
  by_cases he : c = []
  · simp [he]
  · rw [if_neg he]
    intro hm
    rcases List.mem_append.mp hm with hm | hm
    · have := List.eq_of_mem_replicate hm
      omega
    · exact h hm

lemma fmtGo_no_lf (d : Int) (ls : List (List Nat)) (h : ∀ l ∈ ls, 10 ∉ l) :
    ∀ x ∈ fmtGo d ls, 10 ∉ x := by
  induction ls generalizing d with
  | nil => intro x hx; simp [fmtGo] at hx
  | cons l ls' ih =>
    intro x hx
    rw [fmtGo] at hx
    rcases List.mem_cons.mp hx with rfl | hx
    · exact renderLine_no_lf _ _ (stripIndent_no_lf l (h l (by simp)))
    · exact ih _ (fun y hy => h y (by simp [hy])) x hx

lemma fmtGo_idem (ls : List (List Nat)) : ∀ d : Int, fmtGo d (fmtGo d ls) = fmtGo d ls := by
  induction ls with
  | nil => intro d; rfl
  | cons l ls' ih =>
    intro d
    rw [fmtGo, fmtGo]
    have hsc : stripIndent (renderLine
        (if (stripIndent l).head? = some 125 then d - 1 else d) (stripIndent l))
        = stripIndent l :=
      stripIndent_renderLine _ _ (stripIndent_idem l)
    rw [hsc, ih]

lemma fmtGo_ne_nil (d : Int) (l : List Nat) (ls : List (List Nat)) :
    fmtGo d (l :: ls) ≠ [] := by
  rw [fmtGo]
  simp

/-! ### processFile (main.go lines 49-137) -/

/-- The statistics accumulator of main.go (timestamps omitted). -/
structure Stats where
  FilesProcessed : Nat
  FilesModified : Nat
  RemovedBlocksRemoved : Nat
  DryRun : Bool
  NormalizeWhitespace : Bool
deriving DecidableEq

/-- The per-file failures `processFile` reports: an unreadable file, a parse
failure (with its diagnostic text) or a failed write, each tagged with the file
path the Go code embeds in the error message. -/
inductive ProcessError where
  | readError (path : String)
  | parseError (path : String) (diag : String)
  | writeError (path : String)
deriving DecidableEq

/-- The buffer `processFile` ends up holding after splice, format and optional
normalization, for a given formatter, normalization flag, file content and
located range list. -/
def finalBuffer (format : List Nat → List Nat) (normalize : Bool)
    (content : List Nat) (ranges : List (Nat × Nat)) : List Nat :=
  if decide (ranges.length > 0) && normalize
  then normalizeConsecutiveNewlines
    (format (if decide (ranges.length > 0) then spliceAll content ranges else content))
  else format (if decide (ranges.length > 0) then spliceAll content ranges else content)

/-- `processFile` of main.go, parameterised over its two external collaborators:
`parseCfg` stands for `hclsyntax.ParseConfig` restricted to the byte ranges of
the top-level `removed` blocks it reports, and `format` stands for
`hclwrite.Format`.  `readOk`/`writeOk` model whether `os.ReadFile` and
`os.WriteFile` succeed; `disk` is the current content of the file on disk.
The function returns the updated stats, the resulting on-disk bytes and the
error, mirroring the Go control flow line by line. -/
def processFile (parseCfg : List Nat → Except String (List (Nat × Nat)))
    (format : List Nat → List Nat) (writeOk : Bool) (filePath : String)
    (readOk : Bool) (disk : List Nat) (stats : Stats) :
    Stats × List Nat × Option ProcessError :=
  if readOk then
    match parseCfg disk with
    | .error diag => (stats, disk, some (.parseError filePath diag))
    | .ok removedRanges =>
      let removedBlocksCount := removedRanges.length
      let fileModified := decide (removedBlocksCount > 0)
      let stats1 := { stats with FilesProcessed := stats.FilesProcessed + 1 }
      if !stats1.DryRun then
        let formattedContent := finalBuffer format stats1.NormalizeWhitespace disk removedRanges
        if fileModified || decide (formattedContent ≠ disk) then
          let stats2 := { stats1 with FilesModified := stats1.FilesModified + 1 }
          let stats3 :=
            if fileModified
            then { stats2 with RemovedBlocksRemoved := stats2.RemovedBlocksRemoved + removedBlocksCount }
            else stats2
          if writeOk then (stats3, formattedContent, none)
          else (stats3, disk, some (.writeError filePath))
        else (stats1, disk, none)
      else
        if fileModified then
          ({ stats1 with
              FilesModified := stats1.FilesModified + 1
              RemovedBlocksRemoved := stats1.RemovedBlocksRemoved + removedBlocksCount },
            disk, none)
        else (stats1, disk, none)
  else (stats, disk, some (.readError filePath))

/-! ### Observers used to state the claims -/

/-- Whether `pat` occurs contiguously inside `s`. -/
def containsSeq (pat : List Nat) : List Nat → Bool
  | [] => decide (pat = [])
  | c :: rest => decide ((c :: rest).take pat.length = pat) || containsSeq pat rest

/-- The byte string `removed {`. -/
def removedBracePat : List Nat := [114, 101, 109, 111, 118, 101, 100, 32, 123]

/-- The lines of a file, dropping the empty artifact that a trailing
terminator leaves behind. -/
def linesOf (s : List Nat) : List (List Nat) :=
  if s.getLast? = some 10 then (splitLinesLF s).dropLast else splitLinesLF s

/-- A fully blank line: empty, or a bare CR left of an LF split of CRLF text. -/
def isBlankLine (l : List Nat) : Bool := l.all (fun c => c == 13)

/-- Whether two adjacent lines of the file are both fully blank. -/
def hasAdjacentBlankLines : List (List Nat) → Bool
  | a :: b :: rest => (isBlankLine a && isBlankLine b) || hasAdjacentBlankLines (b :: rest)
  | _ => false

/-- Whether a byte buffer contains a run of two or more fully blank lines. -/
def hasTwoConsecutiveBlankLines (s : List Nat) : Bool :=
  hasAdjacentBlankLines (linesOf s)

lemma takeWhile_indent_append (u z : List Nat) (hall : ∀ c ∈ u, isIndentByte c = true) :
    List.takeWhile isIndentByte (u ++ 10 :: z) = u := by
  induction u with
  | nil => simp [List.takeWhile_cons, isIndentByte]
  | cons a u' ih =>
    rw [List.cons_append, List.takeWhile_cons, hall a (by simp)]
    rw [ih (fun c hc => hall c (by simp [hc]))]
    simp

/-! ### Claims -/

/-- C1, counterexample: the claim says the end boundary is extended over at most
one line terminator, a bare LF or a CRLF pair.  On the buffer `}\r\r\nx` with a
located range ending after the brace, the splicer consumes the three bytes
`\r\r\n` — neither nothing, nor a bare LF, nor a CRLF pair — before stopping. -/
theorem C1_counterexample :
    spliceOne [125, 13, 13, 10, 120] (0, 1) = [120] ∧
    extendEnd [125, 13, 13, 10, 120] 1 = 4 ∧
    (([125, 13, 13, 10, 120] : List Nat).drop 1).take (extendEnd [125, 13, 13, 10, 120] 1 - 1)
      ∉ [([] : List Nat), [10], [13, 10]] := by
  decide

/-- C1, amended: for every deleted range with an in-bounds start offset, the
start boundary moves back over exactly the run of space/tab bytes preceding it,
the end boundary moves forward over the whole run of CR bytes following the
closing delimiter plus at most one LF (stopping as soon as an LF is consumed,
which is exactly one bare LF or one CRLF pair when no stray CR precedes the
terminator), and the splice keeps every byte outside the extended range. -/
theorem C1_amended (content : List Nat) (s e : Nat) (hs : s ≤ content.length) :
    extendStart content s = s - indentRun content s ∧
    extendEnd content e = e + endConsumed (content.drop e) ∧
    spliceOne content (s, e)
      = content.take (s - indentRun content s)
        ++ content.drop (e + endConsumed (content.drop e)) := by
  refine ⟨extendStart_closed content s hs, extendEnd_closed content e, ?_⟩
  unfold spliceOne
  rw [extendStart_closed content s hs, extendEnd_closed content e]

theorem C1_amended_witness :
    1 ≤ ([32] : List Nat).length ∧
    (extendStart [32] 1 = 1 - indentRun [32] 1 ∧
      extendEnd [32] 0 = 0 + endConsumed (([32] : List Nat).drop 0) ∧
      spliceOne [32] (1, 0)
        = ([32] : List Nat).take (1 - indentRun [32] 1)
          ++ ([32] : List Nat).drop (0 + endConsumed (([32] : List Nat).drop 0))) :=
  ⟨by decide, C1_amended [32] 1 0 (by decide)⟩

/-- C2, counterexample: on the mixed-line-ending buffer `a\n\r\n\r\nb` the
normalizer returns `a\r\n\r\n\r\nb\r\n`, which contains two adjacent fully
blank lines, so the claimed invariant fails for mixed line endings. -/
theorem C2_counterexample :
    normalizeConsecutiveNewlines [97, 10, 13, 10, 13, 10, 98]
        = [97, 13, 10, 13, 10, 13, 10, 98, 13, 10] ∧
    hasTwoConsecutiveBlankLines
        (normalizeConsecutiveNewlines [97, 10, 13, 10, 13, 10, 98]) = true := by
  have h : collapseLoop [97, 10, 13, 10, 13, 10, 98] = [97, 10, 13, 10, 13, 10, 98] :=
    collapseLoop_fix _ rfl
  constructor
  · unfold normalizeConsecutiveNewlines
    rw [h]
    decide
  · unfold normalizeConsecutiveNewlines
    rw [h]
    decide

/-- C2, amended: for buffers with uniform LF line endings (no CR byte), the
normalizer output never contains three consecutive LF bytes — so no run of two
or more blank lines survives anywhere except that up to two blank lines may
remain at the very start of the file — and the output ends with exactly one
line terminator.  Buffers containing CR (CRLF or mixed endings) can keep two
adjacent blank lines, as the counterexample shows. -/
theorem C2_amended (s : List Nat) (hcr : ∀ c ∈ s, c ≠ 13) :
    hasTripleLF (normalizeConsecutiveNewlines s) = false ∧
    ∃ t, normalizeConsecutiveNewlines s = t ++ [10] ∧ t.getLast? ≠ some 10 := by
  obtain ⟨h1, h2, h3⟩ := normalize_cr_free_shape s hcr
  exact ⟨h1, trimRightLF (collapseLoop s), h2, h3⟩

theorem C2_amended_witness :
    (∀ c ∈ ([97, 10, 10, 10, 10, 98] : List Nat), c ≠ 13) ∧
    (hasTripleLF (normalizeConsecutiveNewlines [97, 10, 10, 10, 10, 98]) = false ∧
      ∃ t, normalizeConsecutiveNewlines [97, 10, 10, 10, 10, 98] = t ++ [10] ∧
        t.getLast? ≠ some 10) :=
  ⟨by decide, C2_amended [97, 10, 10, 10, 10, 98] (by decide)⟩

/-- C3, counterexample: on the file `# removed \x7b\nremoved \x7b\x7d\n`, whose only
located block range is the one-line block at bytes 12..22 (the comment line is
leading trivia the locator excludes, as the spec itself mandates), the pipeline
removes the block (`RemovedBlocksRemoved` increases by N = 1) but the preserved
comment line still carries a `removed \x7b` occurrence in the written output, so
the claim's "zero occurrences remaining" part is false. -/
theorem C3_counterexample :
    (processFile (fun _ => Except.ok [(12, 22)]) (fun b => b) true "main.tf" true
        [35, 32, 114, 101, 109, 111, 118, 101, 100, 32, 123, 10,
         114, 101, 109, 111, 118, 101, 100, 32, 123, 125, 10]
        ⟨0, 0, 0, false, false⟩).1.RemovedBlocksRemoved = 1 ∧
    containsSeq removedBracePat
      (processFile (fun _ => Except.ok [(12, 22)]) (fun b => b) true "main.tf" true
        [35, 32, 114, 101, 109, 111, 118, 101, 100, 32, 123, 10,
         114, 101, 109, 111, 118, 101, 100, 32, 123, 125, 10]
        ⟨0, 0, 0, false, false⟩).2.1 = true := by
  decide

/-- C3, amended: in a non-dry-run pass over a readable, parseable file,
`FilesModified` is incremented exactly when the located range list is non-empty
or the formatted buffer differs from the original content, and
`RemovedBlocksRemoved` increases by exactly the number of located ranges (zero
for formatting-only changes); occurrences of `removed \x7b` may survive in
retained text such as preserved comments. -/
theorem C3_amended (parseCfg : List Nat → Except String (List (Nat × Nat)))
    (format : List Nat → List Nat) (writeOk : Bool) (filePath : String)
    (disk : List Nat) (stats : Stats) (ranges : List (Nat × Nat))
    (hdry : stats.DryRun = false) (hp : parseCfg disk = .ok ranges) :
    (processFile parseCfg format writeOk filePath true disk stats).1.FilesModified
        = stats.FilesModified
          + (if ranges ≠ [] ∨ finalBuffer format stats.NormalizeWhitespace disk ranges ≠ disk
             then 1 else 0) ∧
    (processFile parseCfg format writeOk filePath true disk stats).1.RemovedBlocksRemoved
        = stats.RemovedBlocksRemoved + ranges.length := by
  by_cases hr : ranges = []
  · subst hr
    by_cases hf : finalBuffer format stats.NormalizeWhitespace disk [] = disk
    · simp [processFile, hp, hdry, hf]
    · by_cases hw : writeOk
      · simp [processFile, hp, hdry, hf, hw]
      · simp [processFile, hp, hdry, hf, hw]
  · have hlen : ranges.length > 0 := List.length_pos.mpr hr
    by_cases hw : writeOk
    · simp [processFile, hp, hdry, hr, hlen, hw]
    · simp [processFile, hp, hdry, hr, hlen, hw]

theorem C3_amended_witness :
    (processFile (fun _ => Except.ok []) (fun b => b) true "w.tf" true [97]
        ⟨0, 0, 0, false, false⟩).1.FilesModified
      = (0 : Nat)
        + (if ([] : List (Nat × Nat)) ≠ [] ∨ finalBuffer (fun b => b) false [97] [] ≠ [97]
           then 1 else 0) ∧
    (processFile (fun _ => Except.ok []) (fun b => b) true "w.tf" true [97]
        ⟨0, 0, 0, false, false⟩).1.RemovedBlocksRemoved
      = (0 : Nat) + ([] : List (Nat × Nat)).length :=
  C3_amended (fun _ => Except.ok []) (fun b => b) true "w.tf" [97]
    ⟨0, 0, 0, false, false⟩ [] rfl rfl

/-- C4, counterexample: on a formatting-only change (no located block, formatter
output `a\n` differs from content `a`), the non-dry-run pass counts the file as
modified but the dry-run pass does not, so the dry-run counters are not "exactly
the same values as a non-dry-run pass" and a formatting-only change is not
counted as modified under dry-run.  The file bytes are indeed left unchanged. -/
theorem C4_counterexample :
    (processFile (fun _ => Except.ok []) (fun _ => [97, 10]) true "f.tf" true [97]
        ⟨0, 0, 0, false, false⟩).1.FilesModified = 1 ∧
    (processFile (fun _ => Except.ok []) (fun _ => [97, 10]) true "f.tf" true [97]
        ⟨0, 0, 0, true, false⟩).1.FilesModified = 0 ∧
    (processFile (fun _ => Except.ok []) (fun _ => [97, 10]) true "f.tf" true [97]
        ⟨0, 0, 0, true, false⟩).2.1 = [97] := by
  decide

/-- C4, amended: a dry-run pass leaves the disk bytes unchanged and produces the
same `FilesProcessed` and `RemovedBlocksRemoved` as the non-dry-run pass over
the same input; `FilesModified` also agrees whenever the file has at least one
located block or the formatted buffer equals the original content — only
formatting-only changes are counted as modified exclusively by the non-dry-run
pass. -/
theorem C4_amended (parseCfg : List Nat → Except String (List (Nat × Nat)))
    (format : List Nat → List Nat) (w : Bool) (filePath : String)
    (disk : List Nat) (stats : Stats) (ranges : List (Nat × Nat))
    (hp : parseCfg disk = .ok ranges) :
    (processFile parseCfg format w filePath true disk { stats with DryRun := true }).2.1
        = disk ∧
    (processFile parseCfg format w filePath true disk { stats with DryRun := true }).1.FilesProcessed
      = (processFile parseCfg format w filePath true disk { stats with DryRun := false }).1.FilesProcessed ∧
    (processFile parseCfg format w filePath true disk { stats with DryRun := true }).1.RemovedBlocksRemoved
      = (processFile parseCfg format w filePath true disk { stats with DryRun := false }).1.RemovedBlocksRemoved ∧
    ((ranges ≠ [] ∨ finalBuffer format stats.NormalizeWhitespace disk ranges = disk) →
      (processFile parseCfg format w filePath true disk { stats with DryRun := true }).1.FilesModified
        = (processFile parseCfg format w filePath true disk { stats with DryRun := false }).1.FilesModified) := by
  by_cases hr : ranges = []
  · subst hr
    by_cases hf : finalBuffer format stats.NormalizeWhitespace disk [] = disk
    · exact ⟨by simp [processFile, hp], by simp [processFile, hp, hf],
        by simp [processFile, hp, hf], fun _ => by simp [processFile, hp, hf]⟩
    · by_cases hw : w
      · refine ⟨by simp [processFile, hp, hf, hw], by simp [processFile, hp, hf, hw],
          by simp [processFile, hp, hf, hw], ?_⟩
        intro hmod
        rcases hmod with hmod | hmod
        · exact absurd rfl hmod
        · exact absurd hmod hf
      · refine ⟨by simp [processFile, hp, hf, hw], by simp [processFile, hp, hf, hw],
          by simp [processFile, hp, hf, hw], ?_⟩
        intro hmod
        rcases hmod with hmod | hmod
        · exact absurd rfl hmod
        · exact absurd hmod hf
  · have hlen : ranges.length > 0 := List.length_pos.mpr hr
    by_cases hw : w <;>
      exact ⟨by simp [processFile, hp, hlen, hw], by simp [processFile, hp, hlen, hw],
        by simp [processFile, hp, hlen, hw], fun _ => by simp [processFile, hp, hlen, hw]⟩

theorem C4_amended_witness :
    (processFile (fun _ => Except.ok [(0, 1)]) (fun b => b) true "d.tf" true [114, 10]
        { (⟨0, 0, 0, false, false⟩ : Stats) with DryRun := true }).2.1 = [114, 10] ∧
    (processFile (fun _ => Except.ok [(0, 1)]) (fun b => b) true "d.tf" true [114, 10]
        { (⟨0, 0, 0, false, false⟩ : Stats) with DryRun := true }).1.FilesProcessed
      = (processFile (fun _ => Except.ok [(0, 1)]) (fun b => b) true "d.tf" true [114, 10]
          { (⟨0, 0, 0, false, false⟩ : Stats) with DryRun := false }).1.FilesProcessed ∧
    (processFile (fun _ => Except.ok [(0, 1)]) (fun b => b) true "d.tf" true [114, 10]
        { (⟨0, 0, 0, false, false⟩ : Stats) with DryRun := true }).1.RemovedBlocksRemoved
      = (processFile (fun _ => Except.ok [(0, 1)]) (fun b => b) true "d.tf" true [114, 10]
          { (⟨0, 0, 0, false, false⟩ : Stats) with DryRun := false }).1.RemovedBlocksRemoved ∧
    ((([(0, 1)] : List (Nat × Nat)) ≠ []
        ∨ finalBuffer (fun b => b) false [114, 10] [(0, 1)] = [114, 10]) →
      (processFile (fun _ => Except.ok [(0, 1)]) (fun b => b) true "d.tf" true [114, 10]
          { (⟨0, 0, 0, false, false⟩ : Stats) with DryRun := true }).1.FilesModified
        = (processFile (fun _ => Except.ok [(0, 1)]) (fun b => b) true "d.tf" true [114, 10]
            { (⟨0, 0, 0, false, false⟩ : Stats) with DryRun := false }).1.FilesModified) :=
  C4_amended (fun _ => Except.ok [(0, 1)]) (fun b => b) true "d.tf" [114, 10]
    ⟨0, 0, 0, false, false⟩ [(0, 1)] rfl

/-- C5: a comment line immediately preceding a located removed block (with no
blank line between them) survives splicing byte-identically: since the located
range is anchored at the block keyword, the backward extension only consumes
the block's own space/tab indentation and stops at the LF that ends the comment
line, so the spliced buffer is exactly the prefix through the comment and its
terminator followed by the bytes after the forward-extended end. -/
theorem C5_comment_preserved (pre com ind rest : List Nat) (e : Nat)
    (hind : ∀ c ∈ ind, c = 32 ∨ c = 9) :
    spliceOne (pre ++ com ++ [10] ++ ind ++ rest)
        (pre.length + com.length + 1 + ind.length, e)
      = pre ++ com ++ [10]
        ++ (pre ++ com ++ [10] ++ ind ++ rest).drop
            (extendEnd (pre ++ com ++ [10] ++ ind ++ rest) e) := by
  have hsplit : pre ++ com ++ [10] ++ ind ++ rest
      = (pre ++ (com ++ ([10] ++ ind))) ++ rest := by
    simp [List.append_assoc]
  have hlen : (pre ++ (com ++ ([10] ++ ind))).length
      = pre.length + com.length + 1 + ind.length := by
    simp
    omega
  have htake : (pre ++ com ++ [10] ++ ind ++ rest).take
      (pre.length + com.length + 1 + ind.length) = pre ++ (com ++ ([10] ++ ind)) := by
    rw [hsplit]
    exact List.take_left' hlen
  have hall : ∀ c ∈ ind.reverse, isIndentByte c = true := by
    intro c hc
    rcases hind c (List.mem_reverse.mp hc) with h | h <;> rw [h] <;> rfl
  have hrun : indentRun (pre ++ com ++ [10] ++ ind ++ rest)
      (pre.length + com.length + 1 + ind.length) = ind.length := by
    unfold indentRun
    rw [htake]
    have hrev : (pre ++ (com ++ ([10] ++ ind))).reverse
        = ind.reverse ++ 10 :: (com.reverse ++ pre.reverse) := by
      simp [List.reverse_append, List.append_assoc]
    rw [hrev, takeWhile_indent_append _ _ hall]
    simp
  have hslen : pre.length + com.length + 1 + ind.length
      ≤ (pre ++ com ++ [10] ++ ind ++ rest).length := by
    simp
    omega
  have hstart := extendStart_closed (pre ++ com ++ [10] ++ ind ++ rest) _ hslen
  rw [hrun] at hstart
  have htake2 : (pre ++ com ++ [10] ++ ind ++ rest).take
      (pre.length + com.length + 1 + ind.length - ind.length)
      = pre ++ com ++ [10] := by
    have hsplit2 : pre ++ com ++ [10] ++ ind ++ rest
        = (pre ++ (com ++ [10])) ++ (ind ++ rest) := by
      simp [List.append_assoc]
    have hlen2 : (pre ++ (com ++ [10])).length
        = pre.length + com.length + 1 + ind.length - ind.length := by
      simp
      omega
    rw [hsplit2, List.take_left' hlen2]
    simp [List.append_assoc]
  unfold spliceOne
  rw [hstart, htake2]

theorem C5_comment_preserved_witness :
    (∀ c ∈ ([32, 32] : List Nat), c = 32 ∨ c = 9) ∧
    spliceOne (([35, 99] : List Nat) ++ [35, 100] ++ [10] ++ [32, 32] ++ [114, 10])
        (([35, 99] : List Nat).length + ([35, 100] : List Nat).length + 1
          + ([32, 32] : List Nat).length, 7)
      = ([35, 99] : List Nat) ++ [35, 100] ++ [10]
        ++ (([35, 99] : List Nat) ++ [35, 100] ++ [10] ++ [32, 32] ++ [114, 10]).drop
            (extendEnd (([35, 99] : List Nat) ++ [35, 100] ++ [10] ++ [32, 32] ++ [114, 10]) 7) :=
  ⟨by decide, C5_comment_preserved [35, 99] [35, 100] [32, 32] [114, 10] 7 (by decide)⟩

/-- C6: splicing with an empty range list is the identity: the reverse-order
deletion loop never runs, so the buffer is returned byte-identical. -/
theorem C6_splice_empty_noop (bytes : List Nat) : spliceAll bytes [] = bytes := rfl

/-- C7: when parsing fails, `processFile` returns a parse error carrying the
file path and the parser diagnostics, the stats accumulator is untouched and
the bytes on disk are unmodified — no partial result is produced. -/
theorem C7_parse_error (parseCfg : List Nat → Except String (List (Nat × Nat)))
    (format : List Nat → List Nat) (writeOk : Bool) (filePath : String)
    (disk : List Nat) (stats : Stats) (diag : String)
    (hp : parseCfg disk = .error diag) :
    processFile parseCfg format writeOk filePath true disk stats
      = (stats, disk, some (.parseError filePath diag)) := by
  simp [processFile, hp]

theorem C7_parse_error_witness :
    processFile (fun _ => Except.error "unexpected token") (fun b => b) true "bad.tf" true
        [123] ⟨4, 2, 1, false, true⟩
      = (⟨4, 2, 1, false, true⟩, [123],
          some (.parseError "bad.tf" "unexpected token")) :=
  C7_parse_error (fun _ => Except.error "unexpected token") (fun b => b) true "bad.tf"
    [123] ⟨4, 2, 1, false, true⟩ "unexpected token" rfl

/-- C8: the canonical formatter is idempotent, `Format(Format(x)) = Format(x)`,
proved for the formatter modelled from the spec's consumed-interface contract
(the real `hclwrite.Format` is an external collaborator outside this repository). -/
theorem C8_format_idempotent (x : List Nat) :
    hclwriteFormat (hclwriteFormat x) = hclwriteFormat x := by
  unfold hclwriteFormat
  obtain ⟨hd, L, hsp⟩ := List.exists_cons_of_ne_nil (splitLinesLF_ne_nil x)
  have hnn : fmtGo 0 (splitLinesLF x) ≠ [] := by
    rw [hsp]
    exact fmtGo_ne_nil _ _ _
  have hnl : ∀ l ∈ fmtGo 0 (splitLinesLF x), 10 ∉ l :=
    fmtGo_no_lf 0 _ (splitLinesLF_no_lf x)
  rw [splitLinesLF_joinLinesLF _ hnn hnl, fmtGo_idem]

/-- C9: in a non-dry-run pass in which the file counts as modified but the disk
write fails, `processFile` returns a write error while `FilesProcessed`,
`FilesModified` and `RemovedBlocksRemoved` have already been incremented and
are not rolled back. -/
theorem C9_write_error_counters (parseCfg : List Nat → Except String (List (Nat × Nat)))
    (format : List Nat → List Nat) (filePath : String)
    (disk : List Nat) (stats : Stats) (ranges : List (Nat × Nat))
    (hdry : stats.DryRun = false) (hp : parseCfg disk = .ok ranges)
    (hmod : ranges ≠ [] ∨ finalBuffer format stats.NormalizeWhitespace disk ranges ≠ disk) :
    (processFile parseCfg format false filePath true disk stats).2.2
        = some (.writeError filePath) ∧
    (processFile parseCfg format false filePath true disk stats).1.FilesProcessed
        = stats.FilesProcessed + 1 ∧
    (processFile parseCfg format false filePath true disk stats).1.FilesModified
        = stats.FilesModified + 1 ∧
    (processFile parseCfg format false filePath true disk stats).1.RemovedBlocksRemoved
        = stats.RemovedBlocksRemoved + ranges.length := by
  by_cases hr : ranges = []
  · subst hr
    rcases hmod with hmod | hmod
    · exact absurd rfl hmod
    · simp [processFile, hp, hdry, hmod]
  · have hlen : ranges.length > 0 := List.length_pos.mpr hr
    simp [processFile, hp, hdry, hlen]

theorem C9_write_error_counters_witness :
    (processFile (fun _ => Except.ok [(0, 1)]) (fun b => b) false "w.tf" true [114, 10]
        ⟨0, 0, 0, false, false⟩).2.2 = some (.writeError "w.tf") ∧
    (processFile (fun _ => Except.ok [(0, 1)]) (fun b => b) false "w.tf" true [114, 10]
        ⟨0, 0, 0, false, false⟩).1.FilesProcessed = (0 : Nat) + 1 ∧
    (processFile (fun _ => Except.ok [(0, 1)]) (fun b => b) false "w.tf" true [114, 10]
        ⟨0, 0, 0, false, false⟩).1.FilesModified = (0 : Nat) + 1 ∧
    (processFile (fun _ => Except.ok [(0, 1)]) (fun b => b) false "w.tf" true [114, 10]
        ⟨0, 0, 0, false, false⟩).1.RemovedBlocksRemoved
      = (0 : Nat) + ([(0, 1)] : List (Nat × Nat)).length :=
  C9_write_error_counters (fun _ => Except.ok [(0, 1)]) (fun b => b) "w.tf" [114, 10]
    ⟨0, 0, 0, false, false⟩ [(0, 1)] rfl rfl (Or.inl (by simp))

/-- C10: a read failure, as well as a parse failure, leaves the stats
accumulator completely unchanged (`FilesProcessed` is only incremented after a
successful parse) and the disk bytes untouched. -/
theorem C10_read_parse_error_stats (parseCfg : List Nat → Except String (List (Nat × Nat)))
    (format : List Nat → List Nat) (writeOk : Bool) (filePath : String)
    (disk : List Nat) (stats : Stats) :
    ((processFile parseCfg format writeOk filePath false disk stats).1 = stats ∧
      (processFile parseCfg format writeOk filePath false disk stats).2.1 = disk) ∧
    ∀ diag, parseCfg disk = .error diag →
      (processFile parseCfg format writeOk filePath true disk stats).1 = stats ∧
      (processFile parseCfg format writeOk filePath true disk stats).2.1 = disk := by
  refine ⟨⟨by simp [processFile], by simp [processFile]⟩, ?_⟩
  intro diag hp
  exact ⟨by simp [processFile, hp], by simp [processFile, hp]⟩

theorem C10_read_parse_error_stats_witness :
    (((processFile (fun _ => Except.error "bad") (fun b => b) true "r.tf" false [97]
        ⟨1, 2, 3, false, true⟩).1 = ⟨1, 2, 3, false, true⟩ ∧
      (processFile (fun _ => Except.error "bad") (fun b => b) true "r.tf" false [97]
        ⟨1, 2, 3, false, true⟩).2.1 = [97])) ∧
    ((processFile (fun _ => Except.error "bad") (fun b => b) true "r.tf" true [97]
        ⟨1, 2, 3, false, true⟩).1 = ⟨1, 2, 3, false, true⟩ ∧
      (processFile (fun _ => Except.error "bad") (fun b => b) true "r.tf" true [97]
        ⟨1, 2, 3, false, true⟩).2.1 = [97]) :=
  ⟨(C10_read_parse_error_stats (fun _ => Except.error "bad") (fun b => b) true "r.tf" [97]
      ⟨1, 2, 3, false, true⟩).1,
    (C10_read_parse_error_stats (fun _ => Except.error "bad") (fun b => b) true "r.tf" [97]
      ⟨1, 2, 3, false, true⟩).2 "bad" rfl⟩
